import Mathlib

/-!
Verification of the query-completion engine of chaos-mesh's chaosctl
(pkg/chaosctl/common/ctrlclient.go), as a shallow embedding in Lean 4.

The source file embeds the following Go entities:
  * `AutoCompleteContext` with methods `IsComplete`, `Visited`, `Next`
    (ctrlclient.go lines 41-91);
  * `ListArguments` / `listArguments` (lines 118-205);
  * `CompleteQuery` / `completeQuery` (lines 207-293);
  * `fullPermutation` (lines 295-321).

The schema component (`Schema`, `MustGetType`, `resolve`, `ParseQuery`,
`Reflect`) lives in a file of the repository that is not among the sampled
sources; those definitions are modelled from the spec (sec. 4.1-4.2) and are
marked as such.  Third-party library calls (go-pluralize, strcase,
gitchander/permutation) are modelled from their documented contracts.

Go error returns become `Except GqlError`; a Go runtime panic is modelled by
the distinguished `GqlError.crash` constructor.  Go `nil` slices and empty
slices coincide observationally in this code (a slice is only ever compared
to `nil` where it cannot be a non-nil empty slice), so slices are embedded as
Lean lists and the `subQueries == nil` test of line 251 becomes `isEmpty`.
-/

/-- Kinds of schema types (ctrlclient.go uses ScalarKind, EnumKind,
ObjectKind, ListKind, NonNullKind; spec sec. 3). -/
inductive TypeKind where
  | ScalarKind
  | EnumKind
  | ObjectKind
  | ListKind
  | NonNullKind
  deriving DecidableEq, Repr

/-- A type reference as it appears on a field: either a named type or a
List/NonNull modifier wrapping another reference (spec sec. 3). -/
inductive TypeRef where
  | named (name : String)
  | list (of : TypeRef)
  | nonNull (of : TypeRef)
  deriving DecidableEq, Repr

/-- A field of an object type: name, type reference and the names of its
declared arguments, in declaration order.  The Go code reads only
`field.Name`, `field.Type`, `len(field.Args)` and `field.Args[0].Name`, so
arguments are embedded by their names. -/
structure FieldDef where
  name : String
  type : TypeRef
  args : List String
  deriving DecidableEq, Repr

/-- A named schema type: name, kind and ordered field list (spec sec. 3). -/
structure TypeDef where
  name : String
  kind : TypeKind
  fields : List FieldDef
  deriving DecidableEq, Repr

/-- The schema: the query root type name and the named types
(modelled from the spec, sec. 3 and 4.1; the schema component is not among
the sampled sources). -/
structure Schema where
  queryTypeName : String
  types : List TypeDef

/-- Errors of the engine.  `crash msg` stands for a Go runtime panic
(not an error value in Go; the call never returns normally). -/
inductive GqlError where
  | schemaErr (msg : String)
  | execErr (msg : String)
  | extractErr (msg : String)
  | unsupportedType (name : String)
  | crash (msg : String)
  deriving DecidableEq, Repr

/-- A query node: name, optional concrete argument value, child nodes in
selection order (spec sec. 3; the Go `Query` keeps children in a map whose
keys are the child names; the queries built here are chains with at most one
child per node, so a list loses no information). -/
structure Query where
  name : String
  arg : Option String
  fields : List Query

mutual
/-- A decoded response value: the generic tagged tree of spec sec. 9.
`ptr` mirrors a Go pointer (reflect.Ptr), `obj` a struct with named fields
(reflect.Struct, field names already in the CamelCase form produced by the
reflection-based decoder), `list` a slice.  `str`/`boolean`/`int` are the
graphql scalar wrappers; `raw` is a value of any other Go type (hits the
default arm of the type switch at ctrlclient.go line 197). -/
inductive RespValue where
  | str (s : String)
  | boolean (b : Bool)
  | int (i : Int)
  | raw
  | ptr (v : RespValue)
  | obj (fields : RespFields)
  | list (elems : RespList)

/-- Named fields of a decoded struct, in declaration order. -/
inductive RespFields where
  | nil
  | cons (name : String) (v : RespValue) (rest : RespFields)

/-- Elements of a decoded slice, in order. -/
inductive RespList where
  | nil
  | cons (v : RespValue) (rest : RespList)
end

/-- The live service: takes the built query (with its concrete argument
values) and returns the decoded response, or an execution error
(spec sec. 4.2 Execute; the wire protocol is out of scope). -/
def Service : Type := Query → Except GqlError RespValue

/-- Modelled from the go-pluralize library contract, restricted to the
regular English nouns that occur in this development: a word already ending
in s is returned unchanged, otherwise s is appended. -/
def plural (s : String) : String :=
  if s.toList.getLast? == some 's' then s else s ++ "s"

/-- Modelled from the iancoleman/strcase library contract (`ToCamel`),
restricted to the single-word field names that occur here: capitalize the
first letter. -/
def toCamel (s : String) : String :=
  match s.toList with
  | [] => s
  | c :: cs => String.mk (c.toUpper :: cs)

/-- Go strings.HasPrefix, character-wise (byte-identical on the ASCII data
appearing here). -/
def startsWith (pre s : String) : Bool :=
  pre.toList.isPrefixOf s.toList

/-- Join with commas (Go strings.Join(xs, ",")). -/
def joinComma (l : List String) : String := String.intercalate "," l

/-- Substring occurrence, used to state what an error message mentions. -/
def strContains (hay needle : String) : Prop :=
  needle.toList <:+: hay.toList

instance (hay needle : String) : Decidable (strContains hay needle) := by
  unfold strContains; infer_instance

/-- Modelled from the spec (sec. 4.1 GetType): look a type up by name,
`SchemaError` if absent.  The schema component is not among the sampled
sources. -/
def MustGetType (s : Schema) (name : String) : Except GqlError TypeDef :=
  match s.types.find? (fun t => t.name == name) with
  | some t => .ok t
  | none => .error (.schemaErr ("unknown type " ++ name))

/-- Modelled from the spec (sec. 4.1 Resolve): recursively unwrap
List/NonNull modifiers to the underlying named type and look it up.  The
schema component is not among the sampled sources. -/
def resolve (s : Schema) : TypeRef → Except GqlError TypeDef
  | .named n => MustGetType s n
  | .list t => resolve s t
  | .nonNull t => resolve s t

/-- Modelled from the spec (sec. 4.1 ParseQuery, sec. 3): walk the path
segments matching field names exactly, starting at the given type, building
nested query nodes; a segment naming no field of the current type is a
`SchemaError`.  Per sec. 3 a query node may carry a concrete argument value
and per sec. 4.3 the built tree is anchored under the root namespace filter,
so a field that declares arguments consumes the following segment as its
concrete argument value.  The schema component is not among the sampled
sources. -/
def ParseQuery (s : Schema) : List String → TypeDef → Except GqlError Query
  | [], _ => .error (.schemaErr "empty query path")
  | [seg], t =>
    match t.fields.find? (fun f => f.name == seg) with
    | none => .error (.schemaErr ("no field " ++ seg ++ " in type " ++ t.name))
    | some _ => .ok { name := seg, arg := none, fields := [] }
  | seg :: next :: rest, t =>
    match t.fields.find? (fun f => f.name == seg) with
    | none => .error (.schemaErr ("no field " ++ seg ++ " in type " ++ t.name))
    | some f =>
      match resolve s f.type with
      | .error e => .error e
      | .ok sub =>
        if f.args.isEmpty then
          match ParseQuery s (next :: rest) sub with
          | .error e => .error e
          | .ok child => .ok { name := seg, arg := none, fields := [child] }
        else
          match rest with
          | [] => .ok { name := seg, arg := some next, fields := [] }
          | r1 :: rs =>
            match ParseQuery s (r1 :: rs) sub with
            | .error e => .error e
            | .ok child => .ok { name := seg, arg := some next, fields := [child] }

/-- Field lookup in a decoded struct (reflect `FieldByName`). -/
def lookupField : RespFields → String → Option RespValue
  | .nil, _ => none
  | .cons n v rest, key => if n == key then some v else lookupField rest key

mutual
/-- The struct arm of `listArguments` (lines 162-169), with the
`FieldByName` lookup fused into the recursion: find the field named `key`
(the CamelCase form of the query node's name); if absent the Go code
returns the cannot-find-field error; otherwise continue the walk at the
found value with the query node's first child, or with no node when the
chain ends. -/
def listArgumentsObj : RespFields → String → Query → String → Except GqlError (List String)
  | .nil, _, resource, _ =>
    .error (.extractErr ("cannot find field " ++ resource.name ++ " in object"))
  | .cons n v rest, key, resource, startWith =>
    if n == key then
      match resource.fields with
      | f :: _ => listArguments v (some f) startWith
      | [] => listArguments v none startWith
    else listArgumentsObj rest key resource startWith

/-- Embeds `listArguments` (ctrlclient.go lines 156-205): walk the decoded
response guided by the query node chain.  A pointer is dereferenced; a
struct is projected at the CamelCase form of the query node's name (error if
the field is missing) and the walk continues with the node's first child (or
with no node when the chain ends); a slice is flattened element by element;
a scalar reached while a query node remains is an error, and a scalar
reached at the end of the chain is rendered to a string and kept exactly
when it starts with `startWith`.  A struct reached with no query node
dereferences a nil pointer in Go (line 162); that is the `crash` case. -/
def listArguments : RespValue → Option Query → String → Except GqlError (List String)
  | .ptr v, resource, startWith => listArguments v resource startWith
  | .obj flds, some resource, startWith =>
    listArgumentsObj flds (toCamel resource.name) resource startWith
  | .obj _, none, _ => .error (.crash "nil pointer dereference")
  | .list elems, resource, startWith => listArgumentsList elems resource startWith
  | .str s, resource, startWith =>
    match resource with
    | some _ => .error (.extractErr "resource kind is not supported")
    | none => if startsWith startWith s then .ok [s] else .ok []
  | .boolean b, resource, startWith =>
    match resource with
    | some _ => .error (.extractErr "resource kind is not supported")
    | none =>
      let val := if b then "true" else "false"
      if startsWith startWith val then .ok [val] else .ok []
  | .int i, resource, startWith =>
    match resource with
    | some _ => .error (.extractErr "resource kind is not supported")
    | none =>
      let val := toString i
      if startsWith startWith val then .ok [val] else .ok []
  | .raw, resource, _ =>
    match resource with
    | some _ => .error (.extractErr "resource kind is not supported")
    | none => .error (.extractErr "unsupported value")

/-- The slice arm of `listArguments` (lines 170-179): extract from every
element in order, concatenating, aborting on the first error. -/
def listArgumentsList : RespList → Option Query → String → Except GqlError (List String)
  | .nil, _, _ => .ok []
  | .cons v rest, resource, startWith =>
    match listArguments v resource startWith with
    | .error e => .error e
    | .ok xs =>
      match listArgumentsList rest resource startWith with
      | .error e => .error e
      | .ok ys => .ok (xs ++ ys)
end

/-- The list query actually parsed by `ListArguments` (lines 124-127).
In Go, `listQuery := queryStr[:len(queryStr)-1]` shares its backing array
with `queryStr` and `cap(listQuery) = cap(queryStr) >= len(queryStr)`, so
the in-place assignment pluralizes element n-2 of the array and the
subsequent `append` writes `argumentName` into element n-1 without
reallocating.  The full backing array, which is also what `listQuery` views
after the append, is therefore `queryStr` with element n-2 pluralized and
element n-1 overwritten by `argumentName`. -/
def buildListQuery (queryStr : List String) (argumentName : String) : List String :=
  let n := queryStr.length
  ((queryStr.set (n - 2) (plural (queryStr.getD (n - 2) ""))).set (n - 1) argumentName)

/-- Embeds `ListArguments` (ctrlclient.go lines 118-154).  For fewer than
two segments the Go code panics (`queryStr[:-1]` or `listQuery[-1]`).  The
prefix used for filtering is `queryStr[len(queryStr)-1]` read at line 148,
after the in-place append of line 127 has overwritten that array element
with `argumentName` (see `buildListQuery`), so the filter prefix is always
`argumentName`. -/
def ListArguments (s : Schema) (svc : Service) (queryStr : List String)
    (argumentName : String) : Except GqlError (List String) :=
  match MustGetType s s.queryTypeName with
  | .error e => .error e
  | .ok queryType =>
    if queryStr.length < 2 then .error (.crash "slice bounds out of range")
    else
      let listQuery := buildListQuery queryStr argumentName
      let startWith := argumentName
      match ParseQuery s listQuery queryType with
      | .error e => .error e
      | .ok query =>
        let superQuery : Query := { name := "query", arg := none, fields := [query] }
        match svc superQuery with
        | .error e => .error e
        | .ok respValue => listArguments respValue (some query) startWith

/-- Embeds `AutoCompleteContext` (ctrlclient.go lines 41-46).  The visited
set is a Go `map[string]bool` holding only `true` values, embedded as the
list of its keys (membership-equivalent); `maxRecurLevel` is a Go `int`
embedded as `Nat` (every context the program constructs has a non-negative
level: the root gets 6 and decrements stop at the `IsComplete` guard). -/
structure AutoCompleteContext where
  maxRecurLevel : Nat
  visitedTypes : List String
  completeLeaves : Bool
  query : List String

/-- Embeds `NewAutoCompleteContext` (lines 48-55). -/
def NewAutoCompleteContext (ns : String) (level : Nat) (completeLeaves : Bool) :
    AutoCompleteContext :=
  { maxRecurLevel := level
    visitedTypes := []
    completeLeaves := completeLeaves
    query := ["namespace", ns] }

/-- Embeds `AutoCompleteContext.IsComplete` (lines 57-59). -/
def AutoCompleteContext.IsComplete (ctx : AutoCompleteContext) : Bool :=
  ctx.maxRecurLevel == 0

/-- Embeds `AutoCompleteContext.Visited` (lines 61-63). -/
def AutoCompleteContext.Visited (ctx : AutoCompleteContext) (name : String) : Bool :=
  ctx.visitedTypes.contains name

/-- Embeds `AutoCompleteContext.Next` (lines 65-91): a new context whose
level is one less, whose visited set is a fresh set holding `typename` plus
a copy of the parent's keys, and whose query path is a fresh copy of the
parent's extended by the field name and, when non-empty, the argument
value.  The parent context is not modified. -/
def AutoCompleteContext.Next (ctx : AutoCompleteContext)
    (typename fieldName arg : String) : AutoCompleteContext :=
  { maxRecurLevel := ctx.maxRecurLevel - 1
    visitedTypes := typename :: ctx.visitedTypes
    completeLeaves := ctx.completeLeaves
    query := ctx.query ++ [fieldName] ++ (if arg == "" then [] else [arg]) }

/-- Modelled from the gitchander/permutation combination iterator contract:
the list of all C(n,k) index combinations, each strictly increasing within
range n.  The enumeration order of the Lean model may differ from the
library's; every claim below about `fullPermutation` is stated up to
membership within a size group. -/
def combIndexes (n k : Nat) : List (List Nat) :=
  List.sublistsLen k (List.range n)

/-- Embeds `fullPermutation` (ctrlclient.go lines 295-321).  For each
subset length k = i+1 with i ranging over `strs[1:]` (so k runs from 1 to
len(strs)-1), every C(n,k) index combination is materialized and every
ordering of the selected strings is emitted (the permutation iterator,
modelled by `List.permutations'`, enumerates all k! orderings).  On an empty
input, Go evaluates `strs[1:]` with len = cap = 0 and panics with a
slice-bounds error before emitting anything. -/
def fullPermutation (strs : List String) : Except GqlError (List (List String)) :=
  match strs with
  | [] => .error (.crash "slice bounds out of range")
  | _ :: _ =>
    .ok (((List.range (strs.length - 1)).map (fun i =>
      ((combIndexes strs.length (i + 1)).map (fun idxs =>
        (idxs.map (fun j => strs.getD j "")).permutations')).flatten)).flatten)

/-- Embeds the argument loop of `completeQuery` (lines 269-279): for each
argument value returned by `ListArguments`, recurse into the sub-type with
a context extended by the field name and that value, and turn every
sub-completion into a trunk `fieldName/arg/subCompletion`.  `recur` is the
recursive `completeQuery` call one level down. -/
def completeArgsGo (recur : AutoCompleteContext → TypeDef → Except GqlError (List String))
    (ctx : AutoCompleteContext) (fieldName : String) (subType : TypeDef) :
    List String → Except GqlError (List String)
  | [] => .ok []
  | arg :: more =>
    match recur (ctx.Next subType.name fieldName arg) subType with
    | .error e => .error e
    | .ok subQueries =>
      match completeArgsGo recur ctx fieldName subType more with
      | .error e => .error e
      | .ok ts =>
        .ok (subQueries.map (fun sq => fieldName ++ "/" ++ arg ++ "/" ++ sq) ++ ts)

/-- Embeds the field loop of `completeQuery` (lines 234-280), accumulating
the leaf names and the trunk strings in field declaration order.  For each
field: resolve its type (errors propagate), skip it when the resolved
sub-type name is already visited; with no arguments, recurse — an empty
result marks the field name as a leaf, a non-empty result contributes
trunks `fieldName/subCompletion`; with arguments, enumerate the live values
of the first declared argument via `ListArguments` and recurse per value.
`recur` is the recursive `completeQuery` call one level down.  The Go
`append(ctx.query, field.Name)` is embedded with value semantics; whether
it shares `ctx.query`'s backing array in Go depends on the runtime's slice
growth policy, and no claim depends on that distinction. -/
def completeFieldsGo (s : Schema) (svc : Service)
    (recur : AutoCompleteContext → TypeDef → Except GqlError (List String))
    (ctx : AutoCompleteContext) :
    List FieldDef → Except GqlError (List String × List String)
  | [] => .ok ([], [])
  | f :: rest =>
    match resolve s f.type with
    | .error e => .error e
    | .ok subType =>
      if ctx.Visited subType.name then completeFieldsGo s svc recur ctx rest
      else if f.args.isEmpty then
        match recur (ctx.Next subType.name f.name "") subType with
        | .error e => .error e
        | .ok subQueries =>
          match completeFieldsGo s svc recur ctx rest with
          | .error e => .error e
          | .ok (leaves, trunks) =>
            if subQueries.isEmpty then .ok (f.name :: leaves, trunks)
            else .ok (leaves, subQueries.map (fun sq => f.name ++ "/" ++ sq) ++ trunks)
      else
        match ListArguments s svc (ctx.query ++ [f.name]) (f.args.headD "") with
        | .error e => .error e
        | .ok args =>
          match completeArgsGo recur ctx f.name subType args with
          | .error e => .error e
          | .ok argTrunks =>
            match completeFieldsGo s svc recur ctx rest with
            | .error e => .error e
            | .ok (leaves, trunks) => .ok (leaves, argTrunks ++ trunks)

/-- Embeds `completeQuery` (ctrlclient.go lines 222-293), with the
recursion structured on a fuel that always equals `ctx.maxRecurLevel` (the
wrapper `completeQuery` supplies it and `Next` keeps the two in lockstep),
so the fuel-zero clause is exactly the `ctx.IsComplete()` early return of
line 223.  Scalar/Enum types complete to nothing; List/NonNull types are an
error; Object types run the field loop and then assemble the result:
leaves first (joined leaf combinations from `fullPermutation` when
`completeLeaves` is set, otherwise the plain leaf names), then trunks. -/
def completeQueryGo (s : Schema) (svc : Service) :
    Nat → AutoCompleteContext → TypeDef → Except GqlError (List String)
  | 0, _, _ => .ok []
  | n + 1, ctx, root =>
    match root.kind with
    | .ScalarKind => .ok []
    | .EnumKind => .ok []
    | .ListKind => .error (.unsupportedType root.name)
    | .NonNullKind => .error (.unsupportedType root.name)
    | .ObjectKind =>
      match completeFieldsGo s svc (fun c t => completeQueryGo s svc n c t) ctx root.fields with
      | .error e => .error e
      | .ok (leaves, trunks) =>
        if !ctx.completeLeaves then .ok (leaves ++ trunks)
        else
          match fullPermutation leaves with
          | .error e => .error e
          | .ok perms => .ok (perms.map joinComma ++ trunks)

/-- The recursive `completeQuery` at its context's own depth budget. -/
def completeQuery (s : Schema) (svc : Service) (ctx : AutoCompleteContext)
    (root : TypeDef) : Except GqlError (List String) :=
  completeQueryGo s svc ctx.maxRecurLevel ctx root

/-- Embeds `CompleteQuery` (ctrlclient.go lines 207-219): look up the
namespace-scoped root type and recurse from a fresh context with depth
budget 6. -/
def CompleteQuery (s : Schema) (svc : Service) (ns : String)
    (completeLeaves : Bool) : Except GqlError (List String) :=
  (MustGetType s "Namespace").bind
    (fun t => completeQuery s svc (NewAutoCompleteContext ns 6 completeLeaves) t)

mutual
/-- The scalar strings collected by a `listArguments` walk, in source
order, before prefix filtering.  Mirrors the traversal shape of
`listArguments` with the filtering and the error cases stripped. -/
def leafStrings : RespValue → Option Query → List String
  | .ptr v, r => leafStrings v r
  | .obj flds, some r => leafStringsObj flds (toCamel r.name) r
  | .obj _, none => []
  | .list es, r => leafStringsList es r
  | .str s, none => [s]
  | .boolean b, none => [if b then "true" else "false"]
  | .int i, none => [toString i]
  | .str _, some _ => []
  | .boolean _, some _ => []
  | .int _, some _ => []
  | .raw, _ => []

/-- Struct arm of `leafStrings`. -/
def leafStringsObj : RespFields → String → Query → List String
  | .nil, _, _ => []
  | .cons n v rest, key, r =>
    if n == key then
      match r.fields with
      | f :: _ => leafStrings v (some f)
      | [] => leafStrings v none
    else leafStringsObj rest key r

/-- Slice arm of `leafStrings`. -/
def leafStringsList : RespList → Option Query → List String
  | .nil, _ => []
  | .cons v rest, r => leafStrings v r ++ leafStringsList rest r
end

mutual
/-- A response value is well shaped for a query node chain when the
`listArguments` walk over it can reach no error: pointers defer to their
target, a struct is reached only with a query node whose CamelCase name it
carries, slices defer to all their elements, and scalars of a supported
kind are reached exactly when the chain has ended. -/
def wellShaped : RespValue → Option Query → Bool
  | .ptr v, r => wellShaped v r
  | .obj flds, some r => wellShapedObj flds (toCamel r.name) r
  | .obj _, none => false
  | .list es, r => wellShapedList es r
  | .str _, none => true
  | .boolean _, none => true
  | .int _, none => true
  | .str _, some _ => false
  | .boolean _, some _ => false
  | .int _, some _ => false
  | .raw, _ => false

/-- Struct arm of `wellShaped`. -/
def wellShapedObj : RespFields → String → Query → Bool
  | .nil, _, _ => false
  | .cons n v rest, key, r =>
    if n == key then
      match r.fields with
      | f :: _ => wellShaped v (some f)
      | [] => wellShaped v none
    else wellShapedObj rest key r

/-- Slice arm of `wellShaped`. -/
def wellShapedList : RespList → Option Query → Bool
  | .nil, _ => true
  | .cons v rest, r => wellShaped v r && wellShapedList rest r
end

/-- The leaf contribution of a single field in the field loop of
`completeQuery`: `some fieldName` exactly when the field is kept (resolved,
not visited, without arguments) and its recursive completion is empty
(ctrlclient.go lines 251-255). -/
def leafNameOf (s : Schema)
    (recur : AutoCompleteContext → TypeDef → Except GqlError (List String))
    (ctx : AutoCompleteContext) (f : FieldDef) : Option String :=
  match resolve s f.type with
  | .error _ => none
  | .ok subType =>
    if ctx.Visited subType.name then none
    else if f.args.isEmpty then
      match recur (ctx.Next subType.name f.name "") subType with
      | .ok [] => some f.name
      | _ => none
    else none

/-- The trunk contribution of a single field in the field loop of
`completeQuery` (lines 258-260 for argument-less fields, 269-279 for
fields with arguments). -/
def trunkStringsOf (s : Schema) (svc : Service)
    (recur : AutoCompleteContext → TypeDef → Except GqlError (List String))
    (ctx : AutoCompleteContext) (f : FieldDef) : List String :=
  match resolve s f.type with
  | .error _ => []
  | .ok subType =>
    if ctx.Visited subType.name then []
    else if f.args.isEmpty then
      match recur (ctx.Next subType.name f.name "") subType with
      | .ok subQueries => subQueries.map (fun sq => f.name ++ "/" ++ sq)
      | .error _ => []
    else
      match ListArguments s svc (ctx.query ++ [f.name]) (f.args.headD "") with
      | .error _ => []
      | .ok args =>
        args.flatMap (fun arg =>
          match recur (ctx.Next subType.name f.name arg) subType with
          | .ok subQueries =>
            subQueries.map (fun sq => f.name ++ "/" ++ arg ++ "/" ++ sq)
          | .error _ => [])

/-- One recursive step of `completeQuery`: from position `p` (context and
current type) the loop enters position `q`.  This holds exactly when the
budget is not exhausted, the current type is an object, and some field of
it resolves to `q`'s type, that type is not yet visited, and `q`'s context
is derived by `Next` (with the empty argument for argument-less fields;
for fields with arguments the argument value is left unconstrained, a
superset of the values the live service can return). -/
def Descends (s : Schema) (p q : AutoCompleteContext × TypeDef) : Prop :=
  p.1.IsComplete = false ∧ p.2.kind = TypeKind.ObjectKind ∧
  ∃ f, f ∈ p.2.fields ∧ ∃ arg,
    resolve s f.type = .ok q.2 ∧
    p.1.Visited q.2.name = false ∧
    q.1 = p.1.Next q.2.name f.name arg ∧
    (f.args.isEmpty = true → arg = "")

/-- A chain of consecutive `Descends` steps: the positions visited along
one branch of the recursion. -/
def IsDescChain (s : Schema) : List (AutoCompleteContext × TypeDef) → Prop
  | [] => True
  | [_] => True
  | p :: q :: rest => Descends s p q ∧ IsDescChain s (q :: rest)

/-- The String scalar type of the mock schemas. -/
def stringType : TypeDef := { name := "String", kind := .ScalarKind, fields := [] }

/-- Mock Pod object type: one leaf field `name`. -/
def podType : TypeDef :=
  { name := "Pod", kind := .ObjectKind
    fields := [{ name := "name", type := .named "String", args := [] }] }

/-- Mock Namespace object type: a leaf `name`, a per-name lookup field
`pod` with a `name` argument, and the list field `pods` matching the
service's list-field naming convention. -/
def namespaceTypeDef : TypeDef :=
  { name := "Namespace", kind := .ObjectKind
    fields :=
      [{ name := "name", type := .named "String", args := [] },
       { name := "pod", type := .named "Pod", args := ["name"] },
       { name := "pods", type := .list (.named "Pod"), args := [] }] }

/-- Mock query root type: the namespace-scoped entry field. -/
def queryTypeDef : TypeDef :=
  { name := "Query", kind := .ObjectKind
    fields := [{ name := "namespace", type := .named "Namespace", args := ["ns"] }] }

/-- The mock schema of the spec's `ListArguments` example. -/
def mockSchema : Schema :=
  { queryTypeName := "Query"
    types := [queryTypeDef, namespaceTypeDef, podType, stringType] }

/-- Decoded response of the mock service for namespace ns1: pods p1, p2
(field names in the CamelCase form produced by the decoder). -/
def podsResp : RespValue :=
  .ptr (.obj (.cons "Namespace"
    (.obj (.cons "Pods"
      (.list (.cons (.obj (.cons "Name" (.str "p1") .nil))
        (.cons (.obj (.cons "Name" (.str "p2") .nil)) .nil))) .nil)) .nil))

/-- Decoded response of the mock service for an unknown namespace: the
zero value of the requested shape. -/
def emptyNsResp : RespValue :=
  .ptr (.obj (.cons "Namespace" (.obj (.cons "Name" (.str "") .nil)) .nil))

/-- The mock service of the spec's example: pods p1 and p2 live under
namespace ns1; any other namespace argument yields the zero value. -/
def mockService : Service := fun sq =>
  match sq.fields with
  | [q] => if q.arg == some "ns1" then .ok podsResp else .ok emptyNsResp
  | _ => .error (.execErr "malformed super query")

/-- A decoded response carrying a leaf of an unsupported Go type in place
of the pod name. -/
def rawResp : RespValue :=
  .ptr (.obj (.cons "Namespace"
    (.obj (.cons "Pods"
      (.list (.cons (.obj (.cons "Name" .raw .nil)) .nil)) .nil)) .nil))

/-- A service whose response carries a leaf of an unsupported Go type in
place of the pod name. -/
def rawLeafService : Service := fun _ => .ok rawResp

/-- A service that is never reached (used with schemas whose traversed
fields declare no arguments). -/
def noService : Service := fun _ => .error (.execErr "unreachable")

/-- A linear schema deeper than the depth budget: Namespace links through
f1..f7 across A2..A8. -/
def deepSchema : Schema :=
  { queryTypeName := "Query"
    types :=
      [{ name := "Namespace", kind := .ObjectKind
         fields := [{ name := "f1", type := .named "A2", args := [] }] },
       { name := "A2", kind := .ObjectKind
         fields := [{ name := "f2", type := .named "A3", args := [] }] },
       { name := "A3", kind := .ObjectKind
         fields := [{ name := "f3", type := .named "A4", args := [] }] },
       { name := "A4", kind := .ObjectKind
         fields := [{ name := "f4", type := .named "A5", args := [] }] },
       { name := "A5", kind := .ObjectKind
         fields := [{ name := "f5", type := .named "A6", args := [] }] },
       { name := "A6", kind := .ObjectKind
         fields := [{ name := "f6", type := .named "A7", args := [] }] },
       { name := "A7", kind := .ObjectKind
         fields := [{ name := "f7", type := .named "A8", args := [] }] },
       { name := "A8", kind := .ObjectKind
         fields := [{ name := "f8", type := .named "String", args := [] }] },
       stringType] }

/-- An object type with the two leaf fields of the spec's ordering
example, declared as name then action. -/
def demoRoot : TypeDef :=
  { name := "Demo", kind := .ObjectKind
    fields :=
      [{ name := "name", type := .named "String", args := [] },
       { name := "action", type := .named "String", args := [] }] }

/-- Schema for the ordering example. -/
def demoSchema : Schema :=
  { queryTypeName := "Query", types := [demoRoot, stringType] }

/-- Object type B with two leaf fields, used to build a level that
contributes trunks but no leaves. -/
def bType : TypeDef :=
  { name := "B", kind := .ObjectKind
    fields :=
      [{ name := "x", type := .named "String", args := [] },
       { name := "y", type := .named "String", args := [] }] }

/-- Object type A whose single field is a trunk into B, so A's own leaf
list is empty. -/
def aType : TypeDef :=
  { name := "A", kind := .ObjectKind
    fields := [{ name := "b", type := .named "B", args := [] }] }

/-- Schema of the crash example for the leaf-combination mode. -/
def abSchema : Schema :=
  { queryTypeName := "Query", types := [aType, bType, stringType] }

/-- The query node chain namespace(ns1) - pods - name, as parsed from the
documented call shape of `ListArguments`. -/
def nsPodsNameQuery : Query :=
  { name := "namespace", arg := some "ns1"
    fields := [{ name := "pods", arg := none
                 fields := [{ name := "name", arg := none, fields := [] }] }] }

/-- Fixture of the `ExtractLeafValues` example: a struct with a list of
scalar values ns-a, ns-b, other. -/
def namesFixture : RespValue :=
  .obj (.cons "Names"
    (.list (.cons (.str "ns-a") (.cons (.str "ns-b") (.cons (.str "other") .nil)))) .nil)

/-- Query node selecting the `names` field of the fixture. -/
def namesQuery : Query := { name := "names", arg := none, fields := [] }

deriving instance DecidableEq for Except

/-- C1: the claim's call shapes, evaluated against the mock service holding
pods p1 and p2 under namespace ns1.  The claim expects both the literal
call `ListArguments(["namespace","ns1","pods"], "name")` and the
documented call shape with a trailing empty prefix slot to return
["p1","p2"]; the code returns [] in both cases, because the in-place slice
append of ctrlclient.go line 127 overwrites the trailing array element
with the argument name before line 148 reads it as the filter prefix (and
the literal three-segment call additionally pluralizes "ns1", the
second-to-last segment, not "pods").  The third conjunct shows the data is
there: the same extraction with the empty prefix the claim intends yields
exactly ["p1","p2"]. -/
theorem c1_listArguments_code_bug :
    ListArguments mockSchema mockService ["namespace", "ns1", "pods"] "name" = .ok []
    ∧ ListArguments mockSchema mockService ["namespace", "ns1", "pod", ""] "name" = .ok []
    ∧ listArguments podsResp (some nsPodsNameQuery) "" = .ok ["p1", "p2"] := by
  refine ⟨?_, ?_, ?_⟩
  · simp only [ListArguments, listArguments, listArgumentsObj, listArgumentsList, MustGetType,
      mockSchema, queryTypeDef, namespaceTypeDef, podType, stringType, ParseQuery, buildListQuery,
      plural, toCamel, resolve, mockService, podsResp, emptyNsResp]
    decide
  · simp only [ListArguments, listArguments, listArgumentsObj, listArgumentsList, MustGetType,
      mockSchema, queryTypeDef, namespaceTypeDef, podType, stringType, ParseQuery, buildListQuery,
      plural, toCamel, resolve, mockService, podsResp, emptyNsResp]
    decide
  · simp only [listArguments, listArgumentsObj, listArgumentsList, podsResp, nsPodsNameQuery,
      toCamel]
    decide

/-- C5: a context whose remaining budget is zero completes to the empty
result, not an error; the root context of `CompleteQuery` carries the
fixed budget 6 and `CompleteQuery` is exactly the recursion from that
context; and on a nine-type linear schema deeper than the budget the call
succeeds with the single completion truncated at six segments. -/
theorem c5_depth_budget :
    (∀ (s : Schema) (svc : Service) (ctx : AutoCompleteContext) (root : TypeDef),
      ctx.IsComplete = true → completeQuery s svc ctx root = .ok [])
    ∧ (∀ (ns : String) (cl : Bool), (NewAutoCompleteContext ns 6 cl).maxRecurLevel = 6)
    ∧ (∀ (s : Schema) (svc : Service) (ns : String) (cl : Bool),
        CompleteQuery s svc ns cl =
          (MustGetType s "Namespace").bind
            (completeQuery s svc (NewAutoCompleteContext ns 6 cl)))
    ∧ CompleteQuery deepSchema noService "ns1" false = .ok ["f1/f2/f3/f4/f5/f6"] := by
  refine ⟨?_, fun _ _ => rfl, fun _ _ _ _ => rfl, by decide⟩
  intro s svc ctx root h
  have h0 : ctx.maxRecurLevel = 0 := by
    simpa [AutoCompleteContext.IsComplete] using h
  simp [completeQuery, h0, completeQueryGo]

/-- Witness for C5: the budget-exhausted conjunct at a concrete context. -/
theorem c5_witness :
    completeQuery demoSchema noService (NewAutoCompleteContext "ns1" 0 false) demoRoot
      = .ok [] :=
  c5_depth_budget.1 demoSchema noService _ demoRoot (by decide)

/-- C8: with budget remaining, a Scalar or Enum type completes to the
empty result (no children), while a List or NonNull type reached directly
is a fatal unsupported-type error. -/
theorem c8_kind_dispatch :
    ∀ (s : Schema) (svc : Service) (ctx : AutoCompleteContext) (root : TypeDef),
      ctx.IsComplete = false →
      ((root.kind = .ScalarKind ∨ root.kind = .EnumKind) →
        completeQuery s svc ctx root = .ok [])
      ∧ ((root.kind = .ListKind ∨ root.kind = .NonNullKind) →
        completeQuery s svc ctx root = .error (.unsupportedType root.name)) := by
  intro s svc ctx root h
  have h0 : ctx.maxRecurLevel ≠ 0 := by
    simpa [AutoCompleteContext.IsComplete] using h
  obtain ⟨n, hn⟩ : ∃ n, ctx.maxRecurLevel = n + 1 := ⟨ctx.maxRecurLevel - 1, by omega⟩
  constructor
  · rintro (hk | hk) <;> simp [completeQuery, hn, completeQueryGo, hk]
  · rintro (hk | hk) <;> simp [completeQuery, hn, completeQueryGo, hk]

/-- Witness for C8: both kind groups at concrete inputs. -/
theorem c8_witness :
    completeQuery demoSchema noService (NewAutoCompleteContext "ns1" 3 false) stringType
      = .ok []
    ∧ completeQuery demoSchema noService (NewAutoCompleteContext "ns1" 3 false)
        { name := "PodList", kind := .ListKind, fields := [] }
      = .error (.unsupportedType "PodList") := by
  constructor
  · exact (c8_kind_dispatch demoSchema noService _ stringType (by decide)).1 (Or.inl rfl)
  · exact (c8_kind_dispatch demoSchema noService _ _ (by decide)).2 (Or.inl rfl)

/-- C10: `fullPermutation` panics on the empty input (Go slice-bounds
violation on `strs[1:]`); consequently, whenever the field loop of an
object level yields no leaf names and the leaf-combination flag is set,
`completeQuery` crashes rather than returning; the concrete `abSchema`
(whose root object contributes only trunks) exhibits the crash. -/
theorem c10_empty_leaves_crash :
    fullPermutation ([] : List String) = .error (.crash "slice bounds out of range")
    ∧ (∀ (s : Schema) (svc : Service) (ctx : AutoCompleteContext) (root : TypeDef)
        (n : Nat) (trunks : List String),
        ctx.maxRecurLevel = n + 1 → root.kind = .ObjectKind → ctx.completeLeaves = true →
        completeFieldsGo s svc (fun c t => completeQueryGo s svc n c t) ctx root.fields
          = .ok ([], trunks) →
        completeQuery s svc ctx root = .error (.crash "slice bounds out of range"))
    ∧ completeQuery abSchema noService (NewAutoCompleteContext "ns1" 4 true) aType
        = .error (.crash "slice bounds out of range") := by
  refine ⟨rfl, ?_, by decide⟩
  intro s svc ctx root n trunks hn hk hcl hf
  simp [completeQuery, hn, completeQueryGo, hk, hf, hcl, fullPermutation]

/-- Witness for C10: the hypotheses of the crash conjunct discharged at
the concrete two-level schema. -/
theorem c10_witness :
    completeQuery abSchema noService
      { maxRecurLevel := 4, visitedTypes := [], completeLeaves := true
        query := ["namespace", "ns1"] } aType
      = .error (.crash "slice bounds out of range") :=
  c10_empty_leaves_crash.2.1 abSchema noService _ aType 3 ["b/y", "b/x"] rfl rfl rfl
    (by decide)

/-- One recursive step consumes exactly one unit of budget: a child
position's level is one less than its parent's. -/
theorem descends_level {s : Schema} {p q : AutoCompleteContext × TypeDef}
    (h : Descends s p q) : q.1.maxRecurLevel + 1 = p.1.maxRecurLevel := by
  obtain ⟨hc, -, f, -, arg, -, -, hq, -⟩ := h
  have h0 : p.1.maxRecurLevel ≠ 0 := by
    simpa [AutoCompleteContext.IsComplete] using hc
  rw [hq]
  simp [AutoCompleteContext.Next]
  omega

/-- One recursive step derives a visited set whose members are exactly the
newly entered type name plus the parent's members. -/
theorem descends_visited_mem {s : Schema} {p q : AutoCompleteContext × TypeDef}
    (h : Descends s p q) :
    ∀ x, x ∈ q.1.visitedTypes ↔ x = q.2.name ∨ x ∈ p.1.visitedTypes := by
  obtain ⟨-, -, f, -, arg, -, -, hq, -⟩ := h
  intro x
  rw [hq]
  simp [AutoCompleteContext.Next]

/-- One recursive step preserves freedom from duplicates in the visited
set, because the loop enters only sub-types that are not yet visited. -/
theorem descends_visited_nodup {s : Schema} {p q : AutoCompleteContext × TypeDef}
    (h : Descends s p q) (hn : p.1.visitedTypes.Nodup) :
    q.1.visitedTypes.Nodup := by
  obtain ⟨-, -, f, -, arg, -, hvis, hq, -⟩ := h
  have hmem : q.2.name ∉ p.1.visitedTypes := by
    simpa [AutoCompleteContext.Visited] using hvis
  rw [hq]
  simpa [AutoCompleteContext.Next, List.nodup_cons] using ⟨hmem, hn⟩

/-- Every branch of the recursion is bounded by the budget of its first
position: a descending chain starting at level D has at most D+1
positions. -/
theorem descChain_length_le (s : Schema) :
    ∀ (l : List (AutoCompleteContext × TypeDef)), IsDescChain s l →
      ∀ p, l.head? = some p → l.length ≤ p.1.maxRecurLevel + 1
  | [] => by intro _ p hp; simp at hp
  | [q] => by
    intro _ p hp
    simp at hp
    simp
  | q :: r :: rest => by
    intro h p hp
    obtain ⟨hd, hrest⟩ := h
    have ih := descChain_length_le s (r :: rest) hrest r rfl
    have hlv := descends_level hd
    simp only [List.head?_cons, Option.some.injEq] at hp
    subst hp
    simp only [List.length_cons] at ih ⊢
    omega

/-- Along any descending chain whose first visited set has no duplicates,
no visited set ever acquires a duplicate type name. -/
theorem descChain_nodup (s : Schema) :
    ∀ (l : List (AutoCompleteContext × TypeDef)), IsDescChain s l →
      (∀ p, l.head? = some p → p.1.visitedTypes.Nodup) →
      ∀ q ∈ l, q.1.visitedTypes.Nodup
  | [] => by intro _ _ q hq; simp at hq
  | [r] => by
    intro _ hh q hq
    simp at hq
    subst hq
    exact hh q rfl
  | p :: r :: rest => by
    intro h hh q hq
    obtain ⟨hd, hrest⟩ := h
    have hp : p.1.visitedTypes.Nodup := hh p rfl
    have hr : r.1.visitedTypes.Nodup := descends_visited_nodup hd hp
    rcases List.mem_cons.mp hq with hq | hq
    · subst hq; exact hp
    · exact descChain_nodup s (r :: rest) hrest
        (fun x hx => by
          simp only [List.head?_cons, Option.some.injEq] at hx
          subst hx
          exact hr) q hq

/-- C2: each recursive step of the field loop derives a new visited set
equal to the parent's plus the newly entered type name (stated for `Next`
itself and for every `Descends` step); a field whose resolved sub-type
name is already visited is skipped, leaving the loop's result exactly that
of the remaining fields; and along any single recursion path a visited set
that starts without duplicates never acquires one. -/
theorem c2_visited_copy_on_write :
    (∀ (ctx : AutoCompleteContext) (t fd a x : String),
      x ∈ (ctx.Next t fd a).visitedTypes ↔ x = t ∨ x ∈ ctx.visitedTypes)
    ∧ (∀ (s : Schema) (p q : AutoCompleteContext × TypeDef), Descends s p q →
        (∀ x, x ∈ q.1.visitedTypes ↔ x = q.2.name ∨ x ∈ p.1.visitedTypes)
        ∧ (p.1.visitedTypes.Nodup → q.1.visitedTypes.Nodup))
    ∧ (∀ (s : Schema) (svc : Service)
        (recur : AutoCompleteContext → TypeDef → Except GqlError (List String))
        (ctx : AutoCompleteContext) (f : FieldDef) (rest : List FieldDef)
        (subType : TypeDef),
        resolve s f.type = .ok subType → ctx.Visited subType.name = true →
        completeFieldsGo s svc recur ctx (f :: rest)
          = completeFieldsGo s svc recur ctx rest)
    ∧ (∀ (s : Schema) (l : List (AutoCompleteContext × TypeDef)),
        IsDescChain s l → (∀ p, l.head? = some p → p.1.visitedTypes.Nodup) →
        ∀ q ∈ l, q.1.visitedTypes.Nodup) := by
  refine ⟨?_, ?_, ?_, descChain_nodup⟩
  · intro ctx t fd a x
    simp [AutoCompleteContext.Next]
  · intro s p q h
    exact ⟨descends_visited_mem h, descends_visited_nodup h⟩
  · intro s svc recur ctx f rest subType hres hvis
    simp [completeFieldsGo, hres, hvis]

/-- C9: the budget decreases by exactly one per derived context; along any
descending chain each step loses exactly one unit of budget, so a chain
from a position with budget D has at most D+1 positions (at most D
recursive levels below the root); and a context whose budget has reached
zero completes immediately to the empty result. -/
theorem c9_termination_depth :
    (∀ (ctx : AutoCompleteContext) (t fd a : String),
      (ctx.Next t fd a).maxRecurLevel = ctx.maxRecurLevel - 1)
    ∧ (∀ (s : Schema) (p q : AutoCompleteContext × TypeDef), Descends s p q →
        q.1.maxRecurLevel + 1 = p.1.maxRecurLevel)
    ∧ (∀ (s : Schema) (l : List (AutoCompleteContext × TypeDef)),
        IsDescChain s l → ∀ p, l.head? = some p →
        l.length ≤ p.1.maxRecurLevel + 1)
    ∧ (∀ (s : Schema) (svc : Service) (ctx : AutoCompleteContext) (root : TypeDef),
        ctx.IsComplete = true → completeQuery s svc ctx root = .ok []) := by
  refine ⟨fun _ _ _ _ => rfl, fun _ _ _ h => descends_level h,
    descChain_length_le, ?_⟩
  intro s svc ctx root h
  have h0 : ctx.maxRecurLevel = 0 := by
    simpa [AutoCompleteContext.IsComplete] using h
  simp [completeQuery, h0, completeQueryGo]

/-- A concrete recursion step of the crash-example schema: from the root
context at type A into field b's type B. -/
theorem descends_ab :
    Descends abSchema (NewAutoCompleteContext "ns1" 6 false, aType)
      ((NewAutoCompleteContext "ns1" 6 false).Next "B" "b" "", bType) := by
  refine ⟨by decide, rfl, { name := "b", type := .named "B", args := [] },
    by decide, "", by decide, by decide, rfl, fun _ => rfl⟩

/-- Witness for C2: the visited-set conjuncts at the concrete step and the
skip conjunct at a concrete already-visited field. -/
theorem c2_witness :
    ("B" ∈ ((NewAutoCompleteContext "ns1" 6 false).Next "B" "b" "").visitedTypes ↔
      "B" = "B" ∨ "B" ∈ (NewAutoCompleteContext "ns1" 6 false).visitedTypes)
    ∧ completeFieldsGo demoSchema noService (fun _ _ => .ok [])
        { maxRecurLevel := 2, visitedTypes := ["String"], completeLeaves := false
          query := [] }
        [{ name := "name", type := .named "String", args := [] }]
      = completeFieldsGo demoSchema noService (fun _ _ => .ok [])
        { maxRecurLevel := 2, visitedTypes := ["String"], completeLeaves := false
          query := [] } []
    ∧ (((NewAutoCompleteContext "ns1" 6 false).Next "B" "b" "").visitedTypes).Nodup := by
  refine ⟨c2_visited_copy_on_write.1 _ "B" "b" "" "B", ?_, ?_⟩
  · exact c2_visited_copy_on_write.2.2.1 demoSchema noService _ _
      { name := "name", type := .named "String", args := [] } [] stringType
      (by decide) (by decide)
  · exact (c2_visited_copy_on_write.2.1 abSchema _ _ descends_ab).2 (by decide)

/-- Witness for C9: budget decrement, the exact-step budget relation and
the chain-length bound at the concrete two-position chain, and the
budget-zero early return at a concrete context. -/
theorem c9_witness :
    (((NewAutoCompleteContext "ns1" 6 false).Next "B" "b" "").maxRecurLevel
      = (NewAutoCompleteContext "ns1" 6 false).maxRecurLevel - 1)
    ∧ ([(NewAutoCompleteContext "ns1" 6 false, aType),
        ((NewAutoCompleteContext "ns1" 6 false).Next "B" "b" "", bType)].length
      ≤ (NewAutoCompleteContext "ns1" 6 false).maxRecurLevel + 1)
    ∧ completeQuery demoSchema noService (NewAutoCompleteContext "w" 0 true) demoRoot
      = .ok [] := by
  refine ⟨c9_termination_depth.1 _ "B" "b" "", ?_, ?_⟩
  · have hchain : IsDescChain abSchema
        [(NewAutoCompleteContext "ns1" 6 false, aType),
         ((NewAutoCompleteContext "ns1" 6 false).Next "B" "b" "", bType)] := by
      simp only [IsDescChain]
      exact ⟨descends_ab, trivial⟩
    exact c9_termination_depth.2.2.1 abSchema _ hchain _ rfl
  · exact c9_termination_depth.2.2.2 demoSchema noService _ demoRoot (by decide)

/-- The argument loop produces, in argument order, exactly the per-value
trunks of each argument value. -/
theorem completeArgsGo_flatMap
    (recur : AutoCompleteContext → TypeDef → Except GqlError (List String))
    (ctx : AutoCompleteContext) (fname : String) (subType : TypeDef) :
    ∀ (args ts : List String),
      completeArgsGo recur ctx fname subType args = .ok ts →
      ts = args.flatMap (fun arg =>
        match recur (ctx.Next subType.name fname arg) subType with
        | .ok subQueries => subQueries.map (fun sq => fname ++ "/" ++ arg ++ "/" ++ sq)
        | .error _ => [])
  | [], ts => by
    intro h
    simp only [completeArgsGo, Except.ok.injEq] at h
    simp [h.symm]
  | arg :: more, ts => by
    intro h
    simp only [completeArgsGo] at h
    cases hr : recur (ctx.Next subType.name fname arg) subType with
    | error e => rw [hr] at h; cases h
    | ok subQueries =>
      rw [hr] at h
      cases hm : completeArgsGo recur ctx fname subType more with
      | error e => rw [hm] at h; cases h
      | ok ts2 =>
        rw [hm] at h
        simp only [Except.ok.injEq] at h
        have ih := completeArgsGo_flatMap recur ctx fname subType more ts2 hm
        rw [← h, ih, List.flatMap_cons, hr]

/-- The field loop produces exactly the per-field leaf names (in
declaration order) and the per-field trunk strings (in declaration
order). -/
theorem completeFieldsGo_split (s : Schema) (svc : Service)
    (recur : AutoCompleteContext → TypeDef → Except GqlError (List String))
    (ctx : AutoCompleteContext) :
    ∀ (fields : List FieldDef) (leaves trunks : List String),
      completeFieldsGo s svc recur ctx fields = .ok (leaves, trunks) →
      leaves = fields.filterMap (leafNameOf s recur ctx)
      ∧ trunks = fields.flatMap (trunkStringsOf s svc recur ctx)
  | [], leaves, trunks => by
    intro h
    simp only [completeFieldsGo, Except.ok.injEq, Prod.mk.injEq] at h
    simp [h.1.symm, h.2.symm]
  | f :: rest, leaves, trunks => by
    intro h
    simp only [completeFieldsGo] at h
    cases hres : resolve s f.type with
    | error e => simp [hres] at h
    | ok subType =>
      cases hvis : ctx.Visited subType.name with
      | true =>
        simp only [hres, hvis, if_true] at h
        have ih := completeFieldsGo_split s svc recur ctx rest leaves trunks h
        refine ⟨?_, ?_⟩
        · simp [List.filterMap_cons, leafNameOf, hres, hvis, ih.1.symm]
        · simp [List.flatMap_cons, trunkStringsOf, hres, hvis, ih.2.symm]
      | false =>
        cases hargs : f.args.isEmpty with
        | true =>
          cases hrec : recur (ctx.Next subType.name f.name "") subType with
          | error e => simp [hres, hvis, hargs, hrec] at h
          | ok subQueries =>
            cases hrest : completeFieldsGo s svc recur ctx rest with
            | error e => simp [hres, hvis, hargs, hrec, hrest] at h
            | ok pr =>
              obtain ⟨l2, t2⟩ := pr
              have ih := completeFieldsGo_split s svc recur ctx rest l2 t2 hrest
              cases subQueries with
              | nil =>
                simp only [hres, hvis, hargs, hrec, hrest, Bool.false_eq_true,
                  if_false, if_true, List.isEmpty_nil, Except.ok.injEq,
                  Prod.mk.injEq] at h
                obtain ⟨h1, h2⟩ := h
                subst h1
                subst h2
                refine ⟨?_, ?_⟩
                · simp [List.filterMap_cons, leafNameOf, hres, hvis, hargs, hrec,
                    ih.1.symm]
                · simp [List.flatMap_cons, trunkStringsOf, hres, hvis, hargs, hrec,
                    ih.2.symm]
              | cons q qs =>
                simp only [hres, hvis, hargs, hrec, hrest, Bool.false_eq_true,
                  if_false, if_true, List.isEmpty_cons, Except.ok.injEq,
                  Prod.mk.injEq] at h
                obtain ⟨h1, h2⟩ := h
                subst h1
                subst h2
                refine ⟨?_, ?_⟩
                · simp [List.filterMap_cons, leafNameOf, hres, hvis, hargs, hrec,
                    ih.1.symm]
                · simp [List.flatMap_cons, trunkStringsOf, hres, hvis, hargs, hrec,
                    ih.2.symm]
        | false =>
          cases hla : ListArguments s svc (ctx.query ++ [f.name]) (f.args.head?.getD "") with
          | error e => simp [hres, hvis, hargs, hla] at h
          | ok args =>
            cases hca : completeArgsGo recur ctx f.name subType args with
            | error e => simp [hres, hvis, hargs, hla, hca] at h
            | ok argTrunks =>
              cases hrest : completeFieldsGo s svc recur ctx rest with
              | error e => simp [hres, hvis, hargs, hla, hca, hrest] at h
              | ok pr =>
                obtain ⟨l2, t2⟩ := pr
                simp [hres, hvis, hargs, hla, hca, hrest] at h
                obtain ⟨h1, h2⟩ := h
                subst h1
                subst h2
                have ih := completeFieldsGo_split s svc recur ctx rest l2 t2 hrest
                have hts := completeArgsGo_flatMap recur ctx f.name subType args
                  argTrunks hca
                refine ⟨?_, ?_⟩
                · simp [List.filterMap_cons, leafNameOf, hres, hvis, hargs, ih.1.symm]
                · simp [List.flatMap_cons, trunkStringsOf, hres, hvis, hargs, hla,
                    ih.2.symm, hts]

/-- C6: every successful completion of an object level is the leaf block
followed by the trunk block: the leaves are exactly the leaf-field names
in declaration order (combined via `fullPermutation` when the
leaf-combination flag is set, passed through unmodified otherwise) and the
trunks are the per-field trunk strings concatenated in declaration order;
in particular the two-leaf object declared as name then action completes
to exactly ["name", "action"] with the flag unset. -/
theorem c6_result_ordering :
    (∀ (s : Schema) (svc : Service) (ctx : AutoCompleteContext) (root : TypeDef)
        (res : List String),
      ctx.IsComplete = false → root.kind = .ObjectKind →
      completeQuery s svc ctx root = .ok res →
      ∃ leaves trunks,
        completeFieldsGo s svc
            (fun c t => completeQueryGo s svc (ctx.maxRecurLevel - 1) c t)
            ctx root.fields = .ok (leaves, trunks)
        ∧ leaves = root.fields.filterMap
            (leafNameOf s
              (fun c t => completeQueryGo s svc (ctx.maxRecurLevel - 1) c t) ctx)
        ∧ trunks = root.fields.flatMap
            (trunkStringsOf s svc
              (fun c t => completeQueryGo s svc (ctx.maxRecurLevel - 1) c t) ctx)
        ∧ (ctx.completeLeaves = false → res = leaves ++ trunks)
        ∧ (ctx.completeLeaves = true →
            ∃ perms, fullPermutation leaves = .ok perms
              ∧ res = perms.map joinComma ++ trunks))
    ∧ completeQuery demoSchema noService (NewAutoCompleteContext "ns1" 3 false) demoRoot
        = .ok ["name", "action"] := by
  refine ⟨?_, by decide⟩
  intro s svc ctx root res hic hk h
  have h0 : ctx.maxRecurLevel ≠ 0 := by
    simpa [AutoCompleteContext.IsComplete] using hic
  obtain ⟨n, hn⟩ : ∃ n, ctx.maxRecurLevel = n + 1 := ⟨ctx.maxRecurLevel - 1, by omega⟩
  rw [completeQuery, hn] at h
  simp only [completeQueryGo, hk] at h
  have hn1 : ctx.maxRecurLevel - 1 = n := by omega
  rw [hn1]
  cases hf : completeFieldsGo s svc (fun c t => completeQueryGo s svc n c t)
      ctx root.fields with
  | error e => simp [hf] at h
  | ok pr =>
    obtain ⟨leaves, trunks⟩ := pr
    have hsplit := completeFieldsGo_split s svc
      (fun c t => completeQueryGo s svc n c t) ctx root.fields leaves trunks hf
    refine ⟨leaves, trunks, rfl, hsplit.1, hsplit.2, ?_, ?_⟩
    · intro hcl
      simp [hf, hcl] at h
      exact h.symm
    · intro hcl
      simp only [hf, hcl] at h
      cases hp : fullPermutation leaves with
      | error e => simp [hp] at h
      | ok perms =>
        simp [hp] at h
        exact ⟨perms, rfl, h.symm⟩

/-- Witness for C6: the ordering conjunct instantiated at the two-leaf
example object. -/
theorem c6_witness :
    ∃ leaves trunks,
      completeFieldsGo demoSchema noService
          (fun c t => completeQueryGo demoSchema noService
            ((NewAutoCompleteContext "ns1" 3 false).maxRecurLevel - 1) c t)
          (NewAutoCompleteContext "ns1" 3 false) demoRoot.fields = .ok (leaves, trunks)
      ∧ leaves = demoRoot.fields.filterMap
          (leafNameOf demoSchema
            (fun c t => completeQueryGo demoSchema noService
              ((NewAutoCompleteContext "ns1" 3 false).maxRecurLevel - 1) c t)
            (NewAutoCompleteContext "ns1" 3 false))
      ∧ trunks = demoRoot.fields.flatMap
          (trunkStringsOf demoSchema noService
            (fun c t => completeQueryGo demoSchema noService
              ((NewAutoCompleteContext "ns1" 3 false).maxRecurLevel - 1) c t)
            (NewAutoCompleteContext "ns1" 3 false))
      ∧ ((NewAutoCompleteContext "ns1" 3 false).completeLeaves = false →
          ["name", "action"] = leaves ++ trunks)
      ∧ ((NewAutoCompleteContext "ns1" 3 false).completeLeaves = true →
          ∃ perms, fullPermutation leaves = .ok perms
            ∧ ["name", "action"] = perms.map joinComma ++ trunks) :=
  c6_result_ordering.1 demoSchema noService (NewAutoCompleteContext "ns1" 3 false)
    demoRoot ["name", "action"] (by decide) rfl (by decide)

/-- Reading every index of a list back, in order, reproduces the list. -/
theorem range_map_getD : ∀ (l : List String),
    (List.range l.length).map (fun i => l.getD i "") = l
  | [] => rfl
  | a :: t => by
    rw [List.length_cons, List.range_succ_eq_map, List.map_cons, List.map_map]
    simp only [List.getD_cons_zero, Function.comp_def, List.getD_cons_succ]
    rw [range_map_getD t]

/-- C3: on every non-empty input, `fullPermutation` succeeds and emits
exactly the orderings of the sublists whose length lies strictly between 0
and the input length: every emitted sequence is a permutation of such a
sublist, and every permutation of every such sublist is emitted.  On
["a","b","c"] the result is, up to enumeration order, exactly the three
singletons and the six two-element orderings — no full three-element
ordering appears. -/
theorem c3_fullPermutation_complete :
    (∀ (strs : List String), strs ≠ [] →
      ∃ res, fullPermutation strs = .ok res ∧
        ∀ l, l ∈ res ↔ ∃ sub, List.Sublist sub strs ∧ 1 ≤ sub.length
          ∧ sub.length ≤ strs.length - 1 ∧ sub.Perm l)
    ∧ fullPermutation ["a", "b", "c"]
        = .ok [["c"], ["b"], ["a"], ["b", "c"], ["c", "b"], ["a", "c"], ["c", "a"],
               ["a", "b"], ["b", "a"]]
    ∧ List.Perm
        [["c"], ["b"], ["a"], ["b", "c"], ["c", "b"], ["a", "c"], ["c", "a"],
         ["a", "b"], ["b", "a"]]
        [["a"], ["b"], ["c"], ["a", "b"], ["b", "a"], ["a", "c"], ["c", "a"],
         ["b", "c"], ["c", "b"]] := by
  refine ⟨?_, rfl, by decide⟩
  intro strs hne
  match strs, hne with
  | a :: t, _ =>
    refine ⟨_, rfl, ?_⟩
    intro l
    constructor
    · intro hl
      rw [List.mem_flatten] at hl
      obtain ⟨block, hblock, hlb⟩ := hl
      rw [List.mem_map] at hblock
      obtain ⟨i, hi, rfl⟩ := hblock
      rw [List.mem_range] at hi
      rw [List.mem_flatten] at hlb
      obtain ⟨perms, hperms, hlp⟩ := hlb
      rw [List.mem_map] at hperms
      obtain ⟨idxs, hidxs, rfl⟩ := hperms
      rw [combIndexes, List.mem_sublistsLen] at hidxs
      rw [List.mem_permutations'] at hlp
      refine ⟨idxs.map (fun j => (a :: t).getD j ""), ?_, ?_, ?_, hlp.symm⟩
      · have hs := List.Sublist.map (fun j => (a :: t).getD j "") hidxs.1
        rwa [range_map_getD (a :: t)] at hs
      · simp [hidxs.2]
      · simp only [List.length_map, hidxs.2]
        omega
    · rintro ⟨sub, hsub, h1, h2, hperm⟩
      rw [← range_map_getD (a :: t)] at hsub
      obtain ⟨idxs, hidxs, rfl⟩ := List.sublist_map_iff.mp hsub
      rw [List.mem_flatten]
      refine ⟨_, List.mem_map.mpr ⟨idxs.length - 1, List.mem_range.mpr ?_, rfl⟩, ?_⟩
      · simp only [List.length_map] at h1 h2
        omega
      · rw [List.mem_flatten]
        refine ⟨_, List.mem_map.mpr ⟨idxs, ?_, rfl⟩, ?_⟩
        · rw [combIndexes, List.mem_sublistsLen]
          simp only [List.length_map] at h1
          exact ⟨hidxs, by omega⟩
        · rw [List.mem_permutations']
          exact hperm.symm

/-- Witness for C3: the characterization at the concrete three-name
input. -/
theorem c3_witness :
    ∃ res, fullPermutation ["a", "b", "c"] = .ok res ∧
      ∀ l, l ∈ res ↔ ∃ sub, List.Sublist sub ["a", "b", "c"] ∧ 1 ≤ sub.length
        ∧ sub.length ≤ (["a", "b", "c"] : List String).length - 1 ∧ sub.Perm l :=
  c3_fullPermutation_complete.1 ["a", "b", "c"] (by decide)

mutual
/-- On a well-shaped response, the `listArguments` walk succeeds and
returns exactly the scalar leaf strings it encounters, in source order,
filtered to those starting with the prefix. -/
theorem listArguments_filter :
    ∀ (v : RespValue) (r : Option Query) (p : String), wellShaped v r = true →
      listArguments v r p = .ok ((leafStrings v r).filter (fun x => startsWith p x))
  | .ptr v, r, p => by
    intro h
    simp only [wellShaped] at h
    simp only [listArguments, leafStrings]
    exact listArguments_filter v r p h
  | .obj flds, some resource, p => by
    intro h
    simp only [wellShaped] at h
    simp only [listArguments, leafStrings]
    exact listArgumentsObj_filter flds (toCamel resource.name) resource p h
  | .obj flds, none, p => by intro h; simp [wellShaped] at h
  | .list es, r, p => by
    intro h
    simp only [wellShaped] at h
    simp only [listArguments, leafStrings]
    exact listArgumentsList_filter es r p h
  | .str s0, some q, p => by intro h; simp [wellShaped] at h
  | .str s0, none, p => by
    intro h
    simp only [listArguments, leafStrings]
    cases hp : startsWith p s0 <;> simp [List.filter_cons, hp]
  | .boolean b, some q, p => by intro h; simp [wellShaped] at h
  | .boolean b, none, p => by
    intro h
    simp only [listArguments, leafStrings]
    cases hp : startsWith p (if b then "true" else "false") <;>
      simp [List.filter_cons, hp]
  | .int i, some q, p => by intro h; simp [wellShaped] at h
  | .int i, none, p => by
    intro h
    simp only [listArguments, leafStrings]
    cases hp : startsWith p (toString i) <;> simp [List.filter_cons, hp]
  | .raw, r, p => by
    intro h
    cases r <;> simp [wellShaped] at h

/-- Struct arm of `listArguments_filter`. -/
theorem listArgumentsObj_filter :
    ∀ (flds : RespFields) (key : String) (resource : Query) (p : String),
      wellShapedObj flds key resource = true →
      listArgumentsObj flds key resource p
        = .ok ((leafStringsObj flds key resource).filter (fun x => startsWith p x))
  | .nil, key, resource, p => by intro h; simp [wellShapedObj] at h
  | .cons n v rest, key, resource, p => by
    intro h
    simp only [wellShapedObj] at h
    simp only [listArgumentsObj, leafStringsObj]
    cases hk : (n == key) with
    | true =>
      rw [hk] at h
      simp only [if_true] at h ⊢
      cases hf : resource.fields with
      | nil => rw [hf] at h; exact listArguments_filter v none p h
      | cons f fs => rw [hf] at h; exact listArguments_filter v (some f) p h
    | false =>
      rw [hk] at h
      simp only [Bool.false_eq_true, if_false] at h ⊢
      exact listArgumentsObj_filter rest key resource p h

/-- Slice arm of `listArguments_filter`. -/
theorem listArgumentsList_filter :
    ∀ (es : RespList) (r : Option Query) (p : String),
      wellShapedList es r = true →
      listArgumentsList es r p
        = .ok ((leafStringsList es r).filter (fun x => startsWith p x))
  | .nil, r, p => by intro h; simp [listArgumentsList, leafStringsList]
  | .cons v rest, r, p => by
    intro h
    simp only [wellShapedList, Bool.and_eq_true] at h
    simp only [listArgumentsList, leafStringsList]
    rw [listArguments_filter v r p h.1, listArgumentsList_filter rest r p h.2]
    simp [List.filter_append]
end

/-- C7: on every well-shaped response the extraction walk succeeds and
emits exactly the scalar leaf strings that start with the prefix, in
source order; over the fixture holding ns-a, ns-b, other with prefix ns-
it returns exactly ["ns-a", "ns-b"]. -/
theorem c7_extract_leaf_values :
    (∀ (v : RespValue) (r : Option Query) (p : String), wellShaped v r = true →
      listArguments v r p = .ok ((leafStrings v r).filter (fun x => startsWith p x)))
    ∧ listArguments namesFixture (some namesQuery) "ns-" = .ok ["ns-a", "ns-b"] := by
  refine ⟨listArguments_filter, ?_⟩
  simp only [listArguments, listArgumentsObj, listArgumentsList, namesFixture,
    namesQuery, toCamel]
  decide

/-- Witness for C7: the filter characterization applied to the concrete
fixture. -/
theorem c7_witness :
    listArguments namesFixture (some namesQuery) "ns-"
      = .ok ((leafStrings namesFixture (some namesQuery)).filter
          (fun x => startsWith "ns-" x)) :=
  c7_extract_leaf_values.1 namesFixture (some namesQuery) "ns-"
    (by
      simp only [wellShaped, wellShapedObj, wellShapedList, namesFixture, namesQuery,
        toCamel]
      decide)

/-- C4 counterexample: a leaf-value extraction failure surfaces as exactly
the inner error, whose message mentions neither any path segment of the
originating query (namespace, ns1, pod or pods) nor the requested field
name. -/
theorem c4_counterexample :
    ListArguments mockSchema rawLeafService ["namespace", "ns1", "pod", ""] "name"
      = .error (.extractErr "unsupported value")
    ∧ ¬ strContains "unsupported value" "namespace"
    ∧ ¬ strContains "unsupported value" "ns1"
    ∧ ¬ strContains "unsupported value" "pod"
    ∧ ¬ strContains "unsupported value" "pods"
    ∧ ¬ strContains "unsupported value" "name" := by
  refine ⟨?_, by decide, by decide, by decide, by decide, by decide⟩
  simp only [ListArguments, listArguments, listArgumentsObj, listArgumentsList,
    MustGetType, mockSchema, queryTypeDef, namespaceTypeDef, podType, stringType,
    ParseQuery, buildListQuery, plural, toCamel, resolve, rawLeafService, rawResp]
  decide

/-- C4 amended: every failure of query parsing, execution or leaf-value
extraction inside `ListArguments` is fatal — the call returns immediately
with the failing stage's error propagated unchanged (no retry and no
wrapping that would attach the originating path or field name). -/
theorem c4_amended :
    ∀ (s : Schema) (svc : Service) (qs : List String) (an : String) (qt : TypeDef)
      (e : GqlError),
      MustGetType s s.queryTypeName = .ok qt → 2 ≤ qs.length →
      (ParseQuery s (buildListQuery qs an) qt = .error e →
        ListArguments s svc qs an = .error e)
      ∧ (∀ q, ParseQuery s (buildListQuery qs an) qt = .ok q →
          svc { name := "query", arg := none, fields := [q] } = .error e →
          ListArguments s svc qs an = .error e)
      ∧ (∀ q rv, ParseQuery s (buildListQuery qs an) qt = .ok q →
          svc { name := "query", arg := none, fields := [q] } = .ok rv →
          listArguments rv (some q) an = .error e →
          ListArguments s svc qs an = .error e) := by
  intro s svc qs an qt e hqt hlen
  have hnot : ¬ (qs.length < 2) := by omega
  refine ⟨?_, ?_, ?_⟩
  · intro hp
    simp [ListArguments, hqt, hnot, hp]
  · intro q hp hsvc
    simp [ListArguments, hqt, hnot, hp, hsvc]
  · intro q rv hp hsvc hext
    simp [ListArguments, hqt, hnot, hp, hsvc, hext]

/-- Witness for C4: the extraction-failure conjunct discharged at the
concrete unsupported-leaf service. -/
theorem c4_amended_witness :
    ListArguments mockSchema rawLeafService ["namespace", "ns1", "pod", ""] "name"
      = .error (.extractErr "unsupported value") :=
  (c4_amended mockSchema rawLeafService ["namespace", "ns1", "pod", ""] "name"
      queryTypeDef (.extractErr "unsupported value") rfl (by decide)).2.2
    nsPodsNameQuery rawResp rfl rfl
    (by
      simp only [listArguments, listArgumentsObj, listArgumentsList, rawResp,
        nsPodsNameQuery, toCamel]
      decide)
